import Mathlib

set_option maxRecDepth 8192

/-! Formal model of the zebra-state block index service and block locator
(`zebra-state/src/on_disk.rs`, `zebra-state/src/lib.rs`), and of the
finalized shielded state store (`zebra_db/shielded.rs`), together with
proofs of the properties claimed in the specification.

Bytes are modelled as `List Nat`; sled trees and RocksDB column families
are modelled as association lists in which the most recent insertion comes
first, so a lookup that takes the first match has overwrite semantics. -/

/-- Outcome of running a fallible piece of Rust code: a normal return,
a returned boxed error, or a process panic (`unwrap`, `expect`, `todo`). -/
inductive RunResult (α : Type) where
  | ok (value : α)
  | err (msg : String)
  | panic (msg : String)
deriving DecidableEq

/-- A block, abstracted to exactly the data the state service reads from it:
its header hash (an opaque 32-byte value, modelled as a `Nat`) and its
coinbase height (`none` when the block has no parseable coinbase height). -/
structure Block where
  hash : Nat
  coinbase_height : Option Nat
deriving DecidableEq

/-- Canonical block serialization (`Block::zcash_serialize`): an injective
byte encoding of the abstracted block, tagged by whether a coinbase height
is present. -/
def Block.zcashSerialize (b : Block) : List Nat :=
  match b.coinbase_height with
  | none => [0, b.hash]
  | some h => [1, b.hash, h]

/-- Canonical block deserialization (`Block::zcash_deserialize`): the
partial inverse of `Block.zcashSerialize`, returning `none` on bytes that
are not a canonical encoding. -/
def zcashDeserialize : List Nat → Option Block
  | [0, hv] => some ⟨hv, none⟩
  | [1, hv, h] => some ⟨hv, some h⟩
  | _ => none

/-- Lookup in an association-list keyspace: the first (most recent) entry
with the given key wins, matching the overwrite semantics of sled. -/
def alGet {α : Type} (l : List (Nat × α)) (k : Nat) : Option α :=
  match l with
  | [] => none
  | (k', v) :: rest => if k' = k then some v else alGet rest k

/-- Insertion into an association-list keyspace; the new entry shadows any
older entry with the same key. -/
def alInsert {α : Type} (l : List (Nat × α)) (k : Nat) (v : α) : List (Nat × α) :=
  (k, v) :: l

/-- Key-membership test (`contains_key` / `zs_contains`). -/
def alContains {α : Type} (l : List (Nat × α)) (k : Nat) : Bool :=
  (alGet l k).isSome

/-- Deletion of a key (`zs_delete`): removes every entry with the key. -/
def alDelete {α : Type} (l : List (Nat × α)) (k : Nat) : List (Nat × α) :=
  l.filter (fun p => p.1 != k)

/-- Entry at the maximal key (`tree.iter().values().next_back()` on a sled
tree keyed by big-endian heights, whose byte order is the numeric order).
Among entries with equal keys the most recent (frontmost) one wins. -/
def maxEntry {α : Type} : List (Nat × α) → Option (Nat × α)
  | [] => none
  | e :: rest =>
    match maxEntry rest with
    | none => some e
    | some e' => if e.1 < e'.1 then some e' else some e

/-- The sled-backed state: the `by_hash` and `by_height` trees, each
mapping its key to serialized block bytes. -/
structure SledState where
  by_hash : List (Nat × List Nat)
  by_height : List (Nat × List Nat)
deriving DecidableEq

/-- A freshly opened, empty state. -/
def SledState.emptyState : SledState :=
  { by_hash := [], by_height := [] }

/-- `SledState::insert`: computes the hash, unwraps the coinbase height
(panicking when it is absent), serializes the block once, and writes the
same bytes into `by_height` (keyed by height) and `by_hash` (keyed by
hash), returning the hash. No existing entry is ever checked. -/
def SledState.insert (s : SledState) (block : Block) : RunResult (Nat × SledState) :=
  match block.coinbase_height with
  | none => .panic "called Option::unwrap on a None value"
  | some height =>
    let bytes := block.zcashSerialize
    .ok (block.hash,
      { by_height := alInsert s.by_height height bytes
      , by_hash := alInsert s.by_hash block.hash bytes })

/-- `BlockQuery`: a block lookup either by hash or by height. -/
inductive BlockQuery where
  | byHash (hash : Nat)
  | byHeight (height : Nat)

/-- The raw bytes a `SledState::get` query reads from the relevant tree. -/
def SledState.getRaw (s : SledState) : BlockQuery → Option (List Nat)
  | .byHash hash => alGet s.by_hash hash
  | .byHeight height => alGet s.by_height height

/-- `SledState::get`: reads the bytes for the query and deserializes them;
absent key gives `ok none`, malformed bytes give an error. -/
def SledState.get (s : SledState) (query : BlockQuery) : RunResult (Option Block) :=
  match s.getRaw query with
  | none => .ok none
  | some bytes =>
    match zcashDeserialize bytes with
    | none => .err "could not deserialize block bytes"
    | some block => .ok (some block)

/-- `SledState::get_tip`: deserializes the value stored at the maximal
`by_height` key; `ok none` on an empty tree. -/
def SledState.get_tip (s : SledState) : RunResult (Option Block) :=
  match maxEntry s.by_height with
  | none => .ok none
  | some (_, bytes) =>
    match zcashDeserialize bytes with
    | none => .err "could not deserialize block bytes"
    | some block => .ok (some block)

/-- `SledState::contains`: key membership in the `by_hash` tree. -/
def SledState.containsHash (s : SledState) (hash : Nat) : Bool :=
  alContains s.by_hash hash

/-- The block stored at a height, when the lookup succeeds and the bytes
deserialize (a convenience read used to state the theorems). -/
def SledState.blockAtHeight (s : SledState) (height : Nat) : Option Block :=
  match s.get (.byHeight height) with
  | .ok ob => ob
  | .err _ => none
  | .panic _ => none

/-- Size of the `u32` value space. -/
def u32size : Nat := 4294967296

/-- `u32::checked_mul(2)`. -/
def checkedMul2 (s : Nat) : Option Nat :=
  if 2 * s < u32size then some (2 * s) else none

/-- `u32::checked_sub`. -/
def checkedSub (t s : Nat) : Option Nat :=
  if s ≤ t then some (t - s) else none

/-- The step iterator `iter::successors(Some(1u32), |h| h.checked_mul(2))`,
begun at `s`: yields `s` and keeps doubling while the doubled step still
fits in a `u32`. (The source iterator is only ever started at `1`; the
positivity guard makes the recursion well-founded and is vacuous there.) -/
def doublingSteps (s : Nat) : List Nat :=
  if h : 0 < s ∧ 2 * s < u32size then s :: doublingSteps (2 * s) else [s]
termination_by u32size - s
decreasing_by omega

/-- `block_locator_heights` (`zebra-state/src/lib.rs`): from every step in
the doubling sequence started at `1`, emit `tip_height - step` when the
checked subtraction succeeds, and always append height `0` at the end. -/
def block_locator_heights (tip_height : Nat) : List Nat :=
  (doublingSteps 1).filterMap (fun step => checkedSub tip_height step) ++ [0]

/-- The request taxonomy of the state service (`zebra_state::Request`). -/
inductive Request where
  | AddBlock (block : Block)
  | GetBlock (hash : Nat)
  | GetBlockLocator (genesis : Nat)
  | GetTip
  | GetDepth (hash : Nat)

/-- The response taxonomy of the state service (`zebra_state::Response`).
The block-carrying variant is named `Blk` because `Block` already names
the block type. -/
inductive Response where
  | Added (hash : Nat)
  | Blk (block : Block)
  | BlockLocator (block_locator : List Nat)
  | Tip (hash : Nat)
  | Depth (depth : Option Nat)
deriving DecidableEq

/-- The `GetDepth` arm of `SledState::call`: answers `Depth(None)` when the
hash is not in `by_hash`, otherwise reads the block and the tip and
subtracts their coinbase heights (the `u32` subtraction panics on
underflow, as in a debug build). -/
def SledState.callGetDepth (s : SledState) (hash : Nat) : RunResult Response :=
  if s.containsHash hash = false then .ok (.Depth none)
  else
    match s.get (.byHash hash) with
    | .err e => .err e
    | .panic e => .panic e
    | .ok none => .panic "block must be present if contains returned true"
    | .ok (some block) =>
      match s.get_tip with
      | .err e => .err e
      | .panic e => .panic e
      | .ok none => .panic "storage must have a tip if it contains the previous block"
      | .ok (some tip) =>
        match tip.coinbase_height with
        | none => .panic "called Option::unwrap on a None value"
        | some tip_height =>
          match block.coinbase_height with
          | none => .panic "called Option::unwrap on a None value"
          | some block_height =>
            if block_height ≤ tip_height then
              .ok (.Depth (some (tip_height - block_height)))
            else .panic "attempt to subtract with overflow"

/-- The hash collection loop of the `GetBlockLocator` arm: for each height,
look the block up by height (propagating read errors), panic on a hole in
the chain, and record the hash of the deserialized block. -/
def SledState.collectLocatorHashes (s : SledState) : List Nat → RunResult (List Nat)
  | [] => .ok []
  | height :: rest =>
    match s.get (.byHeight height) with
    | .err e => .err e
    | .panic e => .panic e
    | .ok none => .panic "there should be no holes in the current chain"
    | .ok (some block) =>
      match s.collectLocatorHashes rest with
      | .ok hashes => .ok (block.hash :: hashes)
      | .err e => .err e
      | .panic e => .panic e

/-- The `GetBlockLocator` arm of `SledState::call`: an empty store answers
`[genesis]`; otherwise the tip height (whose absence panics) seeds
`block_locator_heights` and every height is resolved to a hash. -/
def SledState.callGetBlockLocator (s : SledState) (genesis : Nat) : RunResult Response :=
  match s.get_tip with
  | .err e => .err e
  | .panic e => .panic e
  | .ok none => .ok (.BlockLocator [genesis])
  | .ok (some tip) =>
    match tip.coinbase_height with
    | none => .panic "tip of the current chain will have a coinbase height"
    | some tip_height =>
      match s.collectLocatorHashes (block_locator_heights tip_height) with
      | .ok hashes => .ok (.BlockLocator hashes)
      | .err e => .err e
      | .panic e => .panic e

/-- `SledState::call` (`impl Service<Request> for SledState`), returning
the response outcome and the state after the request. -/
def SledState.call (s : SledState) : Request → RunResult Response × SledState
  | .AddBlock block =>
    match s.insert block with
    | .ok (hash, s') => (.ok (.Added hash), s')
    | .err e => (.err e, s)
    | .panic e => (.panic e, s)
  | .GetBlock hash =>
    (match s.get (.byHash hash) with
     | .ok (some block) => .ok (.Blk block)
     | .ok none => .err "block could not be found"
     | .err e => .err e
     | .panic e => .panic e, s)
  | .GetTip =>
    (match s.get_tip with
     | .ok (some block) => .ok (.Tip block.hash)
     | .ok none => .err "zebra-state contains no blocks"
     | .err e => .err e
     | .panic e => .panic e, s)
  | .GetDepth hash => (s.callGetDepth hash, s)
  | .GetBlockLocator genesis => (s.callGetBlockLocator genesis, s)

/-- A note commitment tree, abstracted to its root and an opaque residue of
its remaining contents, so that distinct trees may share a root and tree
equality is the structural equality the Rust `PartialEq` compares. -/
structure NCTree where
  root : Nat
  rest : Nat
deriving DecidableEq

/-- The `Default::default()` empty note commitment tree. -/
def NCTree.emptyTree : NCTree :=
  { root := 0, rest := 0 }

/-- A completed note commitment subtree: its `u16` index and an opaque
encoding of its data (root node and end height). -/
structure NoteCommitmentSubtree where
  index : Nat
  data : Nat
deriving DecidableEq

/-- `NoteCommitmentTrees`: the precomputed post-state note commitment trees
of a semantically verified block, with the optional completed subtrees. -/
structure NoteCommitmentTrees where
  sprout : NCTree
  sapling : NCTree
  sapling_subtree : Option NoteCommitmentSubtree
  orchard : NCTree
  orchard_subtree : Option NoteCommitmentSubtree
deriving DecidableEq

/-- A transaction, abstracted to its revealed nullifiers per shielded pool
(each nullifier an opaque fixed-width byte value, modelled as a `Nat`). -/
structure Transaction where
  sprout_nullifiers : List Nat
  sapling_nullifiers : List Nat
  orchard_nullifiers : List Nat
deriving DecidableEq

/-- A semantically verified block, abstracted to its transaction list. -/
structure SemanticallyVerifiedBlock where
  transactions : List Transaction
deriving DecidableEq

/-- One operation accumulated in a `DiskWriteBatch`. Modelled from the
spec: the engine batch gathers typed inserts and deletes per column family
and is later applied atomically. Nullifier and Sapling/Orchard anchor
inserts carry the empty value; the Sprout anchor stores the tree that
produces the root. -/
inductive Op where
  | putSproutNullifier (n : Nat)
  | putSaplingNullifier (n : Nat)
  | putOrchardNullifier (n : Nat)
  | putSproutAnchor (root : Nat) (t : NCTree)
  | putSaplingAnchor (root : Nat)
  | putOrchardAnchor (root : Nat)
  | delSproutTree (height : Nat)
  | putSproutTree (height : Nat) (t : NCTree)
  | putSaplingTree (height : Nat) (t : NCTree)
  | putOrchardTree (height : Nat) (t : NCTree)
  | putSaplingSubtree (index : Nat) (data : Nat)
  | putOrchardSubtree (index : Nat) (data : Nat)
deriving DecidableEq

/-- The finalized state database, restricted to the column families the
shielded module touches. Nullifier and Sapling/Orchard anchor columns map
keys to byte values (always the empty byte string `[]`). The Sprout tree
column family holds both the unit-keyed slot and legacy height keys; they
are modelled as two fields. `finalized_tip_height` is modelled from the
spec: the tip is the maximal key of the by-height block index. -/
structure ZebraDb where
  finalized_tip_height : Option Nat
  sprout_nullifiers : List (Nat × List Nat)
  sapling_nullifiers : List (Nat × List Nat)
  orchard_nullifiers : List (Nat × List Nat)
  sprout_anchors : List (Nat × NCTree)
  sapling_anchors : List (Nat × List Nat)
  orchard_anchors : List (Nat × List Nat)
  sprout_tree_unit : Option NCTree
  sprout_trees : List (Nat × NCTree)
  sapling_trees : List (Nat × NCTree)
  orchard_trees : List (Nat × NCTree)
  sapling_subtrees : List (Nat × Nat)
  orchard_subtrees : List (Nat × Nat)
deriving DecidableEq

/-- Modelled from the spec: `prev_key_value_back_from(cf, key)` returns the
entry with the largest key that is at most the given key. Among equal keys
the most recent (frontmost) entry wins, as everywhere in this model. -/
def prevKeyValueBackFrom {α : Type} (l : List (Nat × α)) (k : Nat) : Option (Nat × α) :=
  match l with
  | [] => none
  | e :: rest =>
    if e.1 ≤ k then
      match prevKeyValueBackFrom rest k with
      | none => some e
      | some e' => if e.1 < e'.1 then some e' else some e
    else prevKeyValueBackFrom rest k

/-- `ZebraDb::contains_sprout_nullifier`: existence in the column family. -/
def ZebraDb.contains_sprout_nullifier (db : ZebraDb) (n : Nat) : Bool :=
  alContains db.sprout_nullifiers n

/-- `ZebraDb::contains_sapling_nullifier`: existence in the column family. -/
def ZebraDb.contains_sapling_nullifier (db : ZebraDb) (n : Nat) : Bool :=
  alContains db.sapling_nullifiers n

/-- `ZebraDb::contains_orchard_nullifier`: existence in the column family. -/
def ZebraDb.contains_orchard_nullifier (db : ZebraDb) (n : Nat) : Bool :=
  alContains db.orchard_nullifiers n

/-- `ZebraDb::sapling_tree_by_height`: `ok none` ("unknown") when the store
is empty or the height is above the finalized tip, otherwise the value at
the largest key at most the height, panicking when no such entry exists. -/
def ZebraDb.sapling_tree_by_height (db : ZebraDb) (height : Nat) : RunResult (Option NCTree) :=
  match db.finalized_tip_height with
  | none => .ok none
  | some tip_height =>
    if height > tip_height then .ok none
    else
      match prevKeyValueBackFrom db.sapling_trees height with
      | none =>
        .panic "Sapling note commitment trees must exist for all heights below the finalized tip"
      | some (_, tree) => .ok (some tree)

/-- `ZebraDb::orchard_tree_by_height`: identical to the Sapling version on
the Orchard column family. -/
def ZebraDb.orchard_tree_by_height (db : ZebraDb) (height : Nat) : RunResult (Option NCTree) :=
  match db.finalized_tip_height with
  | none => .ok none
  | some tip_height =>
    if height > tip_height then .ok none
    else
      match prevKeyValueBackFrom db.orchard_trees height with
      | none =>
        .panic "Orchard note commitment trees must exist for all heights below the finalized tip"
      | some (_, tree) => .ok (some tree)

/-- `ZebraDb::sapling_tree`: the tip tree, or the empty tree when the state
is empty; panics when the tree that must exist below the tip is missing. -/
def ZebraDb.sapling_tree (db : ZebraDb) : RunResult NCTree :=
  match db.finalized_tip_height with
  | none => .ok NCTree.emptyTree
  | some height =>
    match db.sapling_tree_by_height height with
    | .ok (some tree) => .ok tree
    | .ok none => .panic "Sapling note commitment tree must exist if there is a finalized tip"
    | .err e => .err e
    | .panic e => .panic e

/-- `ZebraDb::orchard_tree`: the tip tree, or the empty tree when the state
is empty; panics when the tree that must exist below the tip is missing. -/
def ZebraDb.orchard_tree (db : ZebraDb) : RunResult NCTree :=
  match db.finalized_tip_height with
  | none => .ok NCTree.emptyTree
  | some height =>
    match db.orchard_tree_by_height height with
    | .ok (some tree) => .ok tree
    | .ok none => .panic "Orchard note commitment tree must exist if there is a finalized tip"
    | .err e => .err e
    | .panic e => .panic e

/-- `u16::checked_add`. -/
def checkedAddU16 (a b : Nat) : Option Nat :=
  if a + b ≤ 65535 then some (a + b) else none

/-- `ZebraDb::sapling_subtree_list_by_index_for_rpc`: collect the subtree
entries with index in `[start, start + limit)` when the limit is supplied
and the checked addition succeeds, and in `[start, ∞)` otherwise (the
range collection is modelled from the spec as the entries whose keys lie
in the half-open range); then answer the empty map unless the collected
map contains `start` itself. -/
def sapling_subtree_list_by_index_for_rpc (cf : List (Nat × Nat)) (start_index : Nat)
    (limit : Option Nat) : List (Nat × Nat) :=
  let exclusive_end_bound := limit.bind (fun l => checkedAddU16 start_index l)
  let list :=
    match exclusive_end_bound with
    | some e => cf.filter (fun p => decide (start_index ≤ p.1 ∧ p.1 < e))
    | none => cf.filter (fun p => decide (start_index ≤ p.1))
  if (alGet list start_index).isSome then list else []

/-- `ZebraDb::orchard_subtree_list_by_index_for_rpc`: textually identical
to the Sapling version, applied to the Orchard subtree column family. -/
def orchard_subtree_list_by_index_for_rpc (cf : List (Nat × Nat)) (start_index : Nat)
    (limit : Option Nat) : List (Nat × Nat) :=
  let exclusive_end_bound := limit.bind (fun l => checkedAddU16 start_index l)
  let list :=
    match exclusive_end_bound with
    | some e => cf.filter (fun p => decide (start_index ≤ p.1 ∧ p.1 < e))
    | none => cf.filter (fun p => decide (start_index ≤ p.1))
  if (alGet list start_index).isSome then list else []

/-- `DiskWriteBatch::prepare_nullifier_batch`: append an empty-valued
insert for every Sprout, Sapling and Orchard nullifier the transaction
reveals. -/
def prepare_nullifier_batch (batch : List Op) (transaction : Transaction) : List Op :=
  batch ++ transaction.sprout_nullifiers.map Op.putSproutNullifier
        ++ transaction.sapling_nullifiers.map Op.putSaplingNullifier
        ++ transaction.orchard_nullifiers.map Op.putOrchardNullifier

/-- `DiskWriteBatch::prepare_shielded_transaction_batch`: index each
transaction of the block in turn. -/
def prepare_shielded_transaction_batch (batch : List Op)
    (finalized : SemanticallyVerifiedBlock) : List Op :=
  finalized.transactions.foldl prepare_nullifier_batch batch

/-- Application of one batched operation to the database state. -/
def ZebraDb.applyOp (db : ZebraDb) : Op → ZebraDb
  | .putSproutNullifier n =>
    { db with sprout_nullifiers := alInsert db.sprout_nullifiers n [] }
  | .putSaplingNullifier n =>
    { db with sapling_nullifiers := alInsert db.sapling_nullifiers n [] }
  | .putOrchardNullifier n =>
    { db with orchard_nullifiers := alInsert db.orchard_nullifiers n [] }
  | .putSproutAnchor root t =>
    { db with sprout_anchors := alInsert db.sprout_anchors root t }
  | .putSaplingAnchor root =>
    { db with sapling_anchors := alInsert db.sapling_anchors root [] }
  | .putOrchardAnchor root =>
    { db with orchard_anchors := alInsert db.orchard_anchors root [] }
  | .delSproutTree height =>
    { db with sprout_trees := alDelete db.sprout_trees height }
  | .putSproutTree height t =>
    { db with sprout_trees := alInsert db.sprout_trees height t }
  | .putSaplingTree height t =>
    { db with sapling_trees := alInsert db.sapling_trees height t }
  | .putOrchardTree height t =>
    { db with orchard_trees := alInsert db.orchard_trees height t }
  | .putSaplingSubtree index data =>
    { db with sapling_subtrees := alInsert db.sapling_subtrees index data }
  | .putOrchardSubtree index data =>
    { db with orchard_subtrees := alInsert db.orchard_subtrees index data }

/-- Modelled from the spec: a write batch is applied atomically, making
every accumulated operation visible in order. -/
def ZebraDb.applyBatch (db : ZebraDb) (batch : List Op) : ZebraDb :=
  batch.foldl ZebraDb.applyOp db

/-- The previously stored Sapling tree consulted by `prepare_trees_batch`:
the supplied previous trees when present, otherwise the current tip tree
read from the store (`map_or_else` evaluates the store read lazily). -/
def prev_sapling_tree (zebra_db : ZebraDb) (prev : Option NoteCommitmentTrees) :
    RunResult NCTree :=
  match prev with
  | some trees => .ok trees.sapling
  | none => zebra_db.sapling_tree

/-- The previously stored Orchard tree consulted by `prepare_trees_batch`. -/
def prev_orchard_tree (zebra_db : ZebraDb) (prev : Option NoteCommitmentTrees) :
    RunResult NCTree :=
  match prev with
  | some trees => .ok trees.orchard
  | none => zebra_db.orchard_tree

/-- The Sapling arm of the dedup condition in `prepare_trees_batch`:
`height.is_min() || previous_tree != trees.sapling`, with the Rust
short-circuit keeping the store read unevaluated at the genesis height. -/
def sapling_tree_changed (zebra_db : ZebraDb) (height : Nat) (new_tree : NCTree)
    (prev : Option NoteCommitmentTrees) : RunResult Bool :=
  if height = 0 then .ok true
  else
    match prev_sapling_tree zebra_db prev with
    | .ok prev_tree => .ok (decide (prev_tree ≠ new_tree))
    | .err e => .err e
    | .panic e => .panic e

/-- The Orchard arm of the dedup condition in `prepare_trees_batch`. -/
def orchard_tree_changed (zebra_db : ZebraDb) (height : Nat) (new_tree : NCTree)
    (prev : Option NoteCommitmentTrees) : RunResult Bool :=
  if height = 0 then .ok true
  else
    match prev_orchard_tree zebra_db prev with
    | .ok prev_tree => .ok (decide (prev_tree ≠ new_tree))
    | .err e => .err e
    | .panic e => .panic e

/-- `DiskWriteBatch::prepare_trees_batch`: insert the three anchors, delete
the Sprout tree stored at the previous tip height and insert the new one at
the new height, insert the Sapling and Orchard trees only at the genesis
height or when they differ from the previously stored tree, and insert any
completed subtrees. (The trailing history batch is out of the shielded
core and appends no operation to the column families modelled here.) -/
def prepare_trees_batch (zebra_db : ZebraDb) (batch : List Op) (height : Nat)
    (trees : NoteCommitmentTrees) (prev_note_commitment_trees : Option NoteCommitmentTrees) :
    RunResult (List Op) :=
  let batch := batch ++
    [Op.putSproutAnchor trees.sprout.root trees.sprout,
     Op.putSaplingAnchor trees.sapling.root,
     Op.putOrchardAnchor trees.orchard.root]
  let batch := batch ++
    (match height with
     | 0 => []
     | Nat.succ current_tip_height => [Op.delSproutTree current_tip_height]) ++
    [Op.putSproutTree height trees.sprout]
  match sapling_tree_changed zebra_db height trees.sapling prev_note_commitment_trees with
  | .err e => .err e
  | .panic e => .panic e
  | .ok sapling_changed =>
    let batch := batch ++
      (if sapling_changed then [Op.putSaplingTree height trees.sapling] else [])
    match orchard_tree_changed zebra_db height trees.orchard prev_note_commitment_trees with
    | .err e => .err e
    | .panic e => .panic e
    | .ok orchard_changed =>
      let batch := batch ++
        (if orchard_changed then [Op.putOrchardTree height trees.orchard] else [])
      let batch := batch ++
        (match trees.sapling_subtree with
         | some subtree => [Op.putSaplingSubtree subtree.index subtree.data]
         | none => []) ++
        (match trees.orchard_subtree with
         | some subtree => [Op.putOrchardSubtree subtree.index subtree.data]
         | none => [])
      .ok batch

/-- Recognizer for Sapling tree inserts, used to state the sparseness of
the height-keyed Sapling column. -/
def Op.isPutSaplingTree : Op → Bool
  | .putSaplingTree _ _ => true
  | _ => false

/-- Recognizer for Orchard tree inserts. -/
def Op.isPutOrchardTree : Op → Bool
  | .putOrchardTree _ _ => true
  | _ => false

/-- The network selector of the state configuration. -/
inductive Network where
  | Mainnet
  | Testnet

/-- `zebra_state::Config`: the optional root directory for cached data.
A path is modelled as its list of components. -/
structure StateConfig where
  cache_dir : Option (List String)

/-- The subdirectory name for a network. -/
def net_dir : Network → String
  | .Mainnet => "mainnet"
  | .Testnet => "testnet"

/-- The panic message of the `todo!` raised by `Config::sled_config` when
no cache directory is configured (quote characters written as escapes). -/
def cacheDirTodoMsg : String :=
  "not yet implemented: create a nice user facing error explaining how to set the cache directory in zebrad.toml:\n[state]\ncache_dir = \x27/path/to/cache-or-tmp\x27"

/-- `Config::sled_config`: panics with the `todo!` message when no cache
directory is configured, otherwise produces the sled configuration rooted
at `{cache_dir}/{mainnet|testnet}/state`. -/
def sled_config (config : StateConfig) (network : Network) : RunResult (List String) :=
  match config.cache_dir with
  | none => .panic cacheDirTodoMsg
  | some path => .ok (path ++ [net_dir network, "state"])

/-- `impl Default for Config`: take the cache directory from the
`ZEBRAD_CACHE_DIR` environment variable when set, else from the OS cache
directory joined with "zebra" when available. The ambient environment and
OS lookup are passed as parameters. -/
def default_state_config (env_zebrad_cache_dir : Option String)
    (os_cache_dir : Option (List String)) : StateConfig :=
  { cache_dir :=
      match env_zebrad_cache_dir with
      | some dir => some [dir]
      | none => os_cache_dir.map (fun dir => dir ++ ["zebra"]) }

/-- Projection used to state batch contents: the sub-batch of operations
satisfying a predicate, defined only when the batch was built successfully. -/
def RunResult.filterOps (r : RunResult (List Op)) (p : Op → Bool) : Option (List Op) :=
  match r with
  | .ok ops => some (ops.filter p)
  | .err _ => none
  | .panic _ => none

/-- A fresh finalized state database with every column family empty. -/
def emptyZebraDb : ZebraDb :=
  { finalized_tip_height := none
  , sprout_nullifiers := []
  , sapling_nullifiers := []
  , orchard_nullifiers := []
  , sprout_anchors := []
  , sapling_anchors := []
  , orchard_anchors := []
  , sprout_tree_unit := none
  , sprout_trees := []
  , sapling_trees := []
  , orchard_trees := []
  , sapling_subtrees := []
  , orchard_subtrees := [] }

/-- A small populated database used to exercise the tree reads: finalized
tip at height 10, with Sapling and Orchard trees stored sparsely at
heights 0 and 2. -/
def demoZebraDb : ZebraDb :=
  { emptyZebraDb with
    finalized_tip_height := some 10
  , sapling_trees := [(0, NCTree.mk 5 50), (2, NCTree.mk 6 60)]
  , orchard_trees := [(0, NCTree.mk 7 70), (2, NCTree.mk 8 80)] }

/-- A transaction revealing one nullifier per pool, used as a witness. -/
def demoTx : Transaction :=
  { sprout_nullifiers := [1], sapling_nullifiers := [2], orchard_nullifiers := [3] }

/-- A one-transaction block used as a witness. -/
def demoBlk : SemanticallyVerifiedBlock :=
  { transactions := [demoTx] }

/-- Previous note commitment trees used as a witness for the tree batch. -/
def demoPrevTrees : NoteCommitmentTrees :=
  { sprout := NCTree.mk 1 1, sapling := NCTree.mk 2 2, sapling_subtree := none
  , orchard := NCTree.mk 3 3, orchard_subtree := none }

/-- New note commitment trees whose Sapling tree is unchanged from
`demoPrevTrees` while the Orchard tree changed. -/
def demoNewTrees : NoteCommitmentTrees :=
  { sprout := NCTree.mk 1 9, sapling := NCTree.mk 2 2, sapling_subtree := none
  , orchard := NCTree.mk 4 4, orchard_subtree := none }

/-- Fuel-bounded version of `doublingSteps`, used only to evaluate the
well-founded recursion inside the kernel; `doublingSteps_eq_fuel` shows
that enough fuel makes the two agree. -/
def doublingStepsFuel : Nat → Nat → List Nat
  | 0, s => [s]
  | fuel + 1, s =>
    if 0 < s ∧ 2 * s < u32size then s :: doublingStepsFuel fuel (2 * s) else [s]

theorem zcashSerialize_roundtrip (b : Block) :
    zcashDeserialize b.zcashSerialize = some b := by
  cases b with
  | mk hv ch => cases ch <;> rfl

theorem alGet_alInsert_self {α : Type} (l : List (Nat × α)) (k : Nat) (v : α) :
    alGet (alInsert l k v) k = some v := by
  simp [alInsert, alGet]

theorem alGet_alInsert_ne {α : Type} (l : List (Nat × α)) (k k' : Nat) (v : α)
    (h : k ≠ k') : alGet (alInsert l k v) k' = alGet l k' := by
  simp [alInsert, alGet, h]

/-- C1: for every block successfully inserted, both block indexes are
updated together with the same serialized bytes: afterwards the lookup by
the block hash in `by_hash` and the lookup by the coinbase height in
`by_height` read identical byte sequences, namely the serialization of the
block, and both deserialize to the same block. -/
theorem insert_updates_both_indexes (s s' : SledState) (b : Block) (h hv : Nat)
    (hheight : b.coinbase_height = some h)
    (hins : s.insert b = .ok (hv, s')) :
    s'.getRaw (.byHash b.hash) = some b.zcashSerialize ∧
    s'.getRaw (.byHeight h) = some b.zcashSerialize ∧
    s'.get (.byHash b.hash) = .ok (some b) ∧
    s'.get (.byHeight h) = .ok (some b) := by
  simp only [SledState.insert, hheight, RunResult.ok.injEq, Prod.mk.injEq] at hins
  obtain ⟨rfl, rfl⟩ := hins
  refine ⟨?_, ?_, ?_, ?_⟩ <;>
    simp [SledState.get, SledState.getRaw, alGet_alInsert_self, zcashSerialize_roundtrip]

theorem insert_updates_both_indexes_witness :
    (Block.mk 7 (some 5)).coinbase_height = some 5 ∧
    SledState.emptyState.insert (Block.mk 7 (some 5)) =
      .ok (7, SledState.mk [(7, [1, 7, 5])] [(5, [1, 7, 5])]) ∧
    (SledState.mk [(7, [1, 7, 5])] [(5, [1, 7, 5])]).get (.byHash 7) =
      .ok (some (Block.mk 7 (some 5))) ∧
    (SledState.mk [(7, [1, 7, 5])] [(5, [1, 7, 5])]).get (.byHeight 5) =
      .ok (some (Block.mk 7 (some 5))) :=
  ⟨rfl, rfl,
    (insert_updates_both_indexes SledState.emptyState _ (Block.mk 7 (some 5)) 5 7 rfl rfl).2.2.1,
    (insert_updates_both_indexes SledState.emptyState _ (Block.mk 7 (some 5)) 5 7 rfl rfl).2.2.2⟩

/-- C10: `insert` never checks for an existing entry, so inserting two
distinct blocks with the same coinbase height in sequence succeeds both
times; afterwards the `by_height` lookup at that height returns only the
second block, while `contains` is true for both hashes and the `by_hash`
lookup still returns each original block, breaking the hash/height
correspondence for the first block. -/
theorem insert_overwrites_same_height (s : SledState) (b1 b2 : Block) (h : Nat)
    (h1 : b1.coinbase_height = some h) (h2 : b2.coinbase_height = some h)
    (hne : b1.hash ≠ b2.hash) :
    ∃ s1 s2 : SledState,
      s.insert b1 = .ok (b1.hash, s1) ∧
      s1.insert b2 = .ok (b2.hash, s2) ∧
      s2.blockAtHeight h = some b2 ∧
      s2.containsHash b1.hash = true ∧
      s2.containsHash b2.hash = true ∧
      s2.get (.byHash b1.hash) = .ok (some b1) ∧
      s2.get (.byHash b2.hash) = .ok (some b2) ∧
      b1 ≠ b2 := by
  refine ⟨{ by_hash := alInsert s.by_hash b1.hash b1.zcashSerialize
          , by_height := alInsert s.by_height h b1.zcashSerialize },
          { by_hash := alInsert (alInsert s.by_hash b1.hash b1.zcashSerialize)
              b2.hash b2.zcashSerialize
          , by_height := alInsert (alInsert s.by_height h b1.zcashSerialize)
              h b2.zcashSerialize },
          ?_, ?_, ?_, ?_, ?_, ?_, ?_, ?_⟩
  · simp [SledState.insert, h1]
  · simp [SledState.insert, h2]
  · simp [SledState.blockAtHeight, SledState.get, SledState.getRaw,
      alGet_alInsert_self, zcashSerialize_roundtrip]
  · simp [SledState.containsHash, alContains, SledState.getRaw,
      alGet_alInsert_ne _ _ _ _ (Ne.symm hne), alGet_alInsert_self]
  · simp [SledState.containsHash, alContains, SledState.getRaw, alGet_alInsert_self]
  · simp [SledState.get, SledState.getRaw, alGet_alInsert_ne _ _ _ _ (Ne.symm hne),
      alGet_alInsert_self, zcashSerialize_roundtrip]
  · simp [SledState.get, SledState.getRaw, alGet_alInsert_self, zcashSerialize_roundtrip]
  · exact fun he => hne (congrArg Block.hash he)

theorem insert_overwrites_same_height_witness :
    (Block.mk 21 (some 9)).coinbase_height = some 9 ∧
    (Block.mk 22 (some 9)).coinbase_height = some 9 ∧
    (Block.mk 21 (some 9)).hash ≠ (Block.mk 22 (some 9)).hash ∧
    ∃ s1 s2 : SledState,
      SledState.emptyState.insert (Block.mk 21 (some 9)) = .ok (21, s1) ∧
      s1.insert (Block.mk 22 (some 9)) = .ok (22, s2) ∧
      s2.blockAtHeight 9 = some (Block.mk 22 (some 9)) ∧
      s2.containsHash 21 = true ∧
      s2.containsHash 22 = true ∧
      s2.get (.byHash 21) = .ok (some (Block.mk 21 (some 9))) ∧
      s2.get (.byHash 22) = .ok (some (Block.mk 22 (some 9))) ∧
      Block.mk 21 (some 9) ≠ Block.mk 22 (some 9) :=
  ⟨rfl, rfl, by decide,
    insert_overwrites_same_height SledState.emptyState
      (Block.mk 21 (some 9)) (Block.mk 22 (some 9)) 9 rfl rfl (by decide)⟩

theorem doublingSteps_pos (s : Nat) (h1 : 0 < s) (h2 : 2 * s < u32size) :
    doublingSteps s = s :: doublingSteps (2 * s) := by
  rw [doublingSteps]
  rw [dif_pos ⟨h1, h2⟩]

theorem doublingSteps_stop (s : Nat) (h : ¬(0 < s ∧ 2 * s < u32size)) :
    doublingSteps s = [s] := by
  rw [doublingSteps]
  rw [dif_neg h]

theorem doublingSteps_eq_fuel (fuel : Nat) : ∀ s : Nat, 0 < s →
    u32size ≤ 2 ^ fuel * s → doublingSteps s = doublingStepsFuel fuel s := by
  induction fuel with
  | zero =>
    intro s hs hle
    rw [doublingSteps_stop s (by simp [pow_zero, one_mul] at hle; omega)]
    rfl
  | succ n ih =>
    intro s hs hle
    by_cases h : 2 * s < u32size
    · rw [doublingSteps_pos s hs h, doublingStepsFuel, if_pos ⟨hs, h⟩]
      have := ih (2 * s) (by omega) (by rw [pow_succ, Nat.mul_assoc] at hle; exact hle)
      rw [this]
    · rw [doublingSteps_stop s (by tauto), doublingStepsFuel, if_neg (by tauto)]

theorem blockLocatorSteps_eq :
    doublingSteps 1 = (List.range 32).map (fun i => 2 ^ i) := by
  rw [doublingSteps_eq_fuel 32 1 (by norm_num) (by norm_num [u32size])]
  decide

theorem filterMap_checkedSub (S : List Nat) (t : Nat) :
    S.filterMap (fun s => checkedSub t s) =
      (S.filter (fun s => decide (s ≤ t))).map (fun s => t - s) := by
  induction S with
  | nil => rfl
  | cons a S ih =>
    simp only [List.filterMap_cons, List.filter_cons]
    by_cases h : a ≤ t
    · rw [show checkedSub t a = some (t - a) from by simp [checkedSub, h]]
      simp [h, ih]
    · rw [show checkedSub t a = none from by simp [checkedSub, h]]
      simp [h, ih]

/-- C8 counterexample: at tip height 1 the locator height sequence is
[0, 0], which is not strictly decreasing, so the claim that the sequence
is strictly decreasing for every tip height fails. -/
theorem block_locator_heights_not_strictly_decreasing :
    block_locator_heights 1 = [0, 0] ∧
    ¬ List.Chain' (fun a b => a > b) (block_locator_heights 1) ∧
    ¬ List.Pairwise (fun a b => a > b) (block_locator_heights 1) := by
  have h : block_locator_heights 1 = [0, 0] := by
    rw [block_locator_heights, blockLocatorSteps_eq]
    decide
  refine ⟨h, ?_, ?_⟩
  · rw [h]
    simp [List.chain'_cons]
  · rw [h]
    simp [List.pairwise_cons]

/-- C8 (amended): for every tip height the locator height sequence without
its final element is strictly decreasing, the full sequence is weakly
decreasing, it begins with tip − 1 whenever tip ≥ 1, and it always ends
with 0; strictness can fail only at the final appended 0, and does fail
there for some tips (tip height 1, as the counterexample shows). -/
theorem block_locator_heights_decreasing (t : Nat) :
    List.Pairwise (fun a b => a > b) (block_locator_heights t).dropLast ∧
    List.Chain' (fun a b => a ≥ b) (block_locator_heights t) ∧
    (1 ≤ t → (block_locator_heights t).head? = some (t - 1)) ∧
    (block_locator_heights t).getLast? = some 0 := by
  have hsteps : List.Pairwise (fun a b => a < b) (doublingSteps 1) := by
    rw [blockLocatorSteps_eq]
    decide
  have hA : List.Pairwise (fun a b => a > b)
      ((doublingSteps 1).filterMap (fun s => checkedSub t s)) := by
    rw [filterMap_checkedSub, List.pairwise_map]
    refine List.Pairwise.imp_of_mem ?_ (hsteps.filter _)
    intro a b ha hb hab
    have hbt : b ≤ t := by simpa using (List.mem_filter.mp hb).2
    omega
  refine ⟨?_, ?_, ?_, ?_⟩
  · rw [block_locator_heights]
    simpa using hA
  · rw [block_locator_heights]
    refine List.chain'_append.mpr ⟨hA.chain'.imp ?_, ?_, ?_⟩
    · intro a b hab
      omega
    · simp
    · intro x _ y hy
      simp only [List.head?_cons, Option.mem_def, Option.some.injEq] at hy
      omega
  · intro ht
    rw [block_locator_heights, blockLocatorSteps_eq]
    have h1 : checkedSub t 1 = some (t - 1) := by simp [checkedSub, ht]
    simp [List.range_succ_eq_map, List.filterMap_cons, h1]
  · rw [block_locator_heights]
    simp

theorem block_locator_heights_decreasing_witness :
    List.Pairwise (fun a b => a > b) (block_locator_heights 3).dropLast ∧
    List.Chain' (fun a b => a ≥ b) (block_locator_heights 3) ∧
    (block_locator_heights 3).head? = some 2 ∧
    (block_locator_heights 3).getLast? = some 0 :=
  ⟨(block_locator_heights_decreasing 3).1,
   (block_locator_heights_decreasing 3).2.1,
   (block_locator_heights_decreasing 3).2.2.1 (by decide),
   (block_locator_heights_decreasing 3).2.2.2⟩

theorem blockAtHeight_get (s : SledState) (ht : Nat) (b : Block)
    (h : s.blockAtHeight ht = some b) : s.get (.byHeight ht) = .ok (some b) := by
  unfold SledState.blockAtHeight at h
  cases hg : s.get (.byHeight ht) <;> rw [hg] at h <;> simp_all

theorem collectLocatorHashes_eq (s : SledState) (L : List Nat)
    (h : ∀ ht ∈ L, ∃ b, s.blockAtHeight ht = some b) :
    s.collectLocatorHashes L =
      .ok (L.filterMap (fun ht => (s.blockAtHeight ht).map Block.hash)) := by
  induction L with
  | nil => rfl
  | cons a L ih =>
    obtain ⟨b, hb⟩ := h a (List.mem_cons_self a L)
    have hget : s.get (.byHeight a) = .ok (some b) := blockAtHeight_get s a b hb
    have ih' := ih (fun ht hht => h ht (List.mem_cons_of_mem a hht))
    simp [SledState.collectLocatorHashes, hget, ih', hb]

/-- C2: for a store whose tip block has coinbase height `t` and which has a
block indexed at every locator height, `GetBlockLocator` answers with the
hashes of the indexed blocks at the heights `t - step` for the doubling
steps `1, 2, 4, ...` (doubling stops when the step would overflow a `u32`,
and `t - step` is emitted only while the checked subtraction succeeds),
followed by one final entry at height `0`; an empty store answers exactly
`[genesis]`. -/
theorem get_block_locator_spec (s : SledState) (g t : Nat) (tb : Block)
    (htip : s.get_tip = .ok (some tb))
    (hth : tb.coinbase_height = some t)
    (hholes : ∀ ht ∈ block_locator_heights t, ∃ b, s.blockAtHeight ht = some b) :
    (s.call (.GetBlockLocator g)).1 =
      .ok (.BlockLocator ((block_locator_heights t).filterMap
        (fun ht => (s.blockAtHeight ht).map Block.hash))) ∧
    block_locator_heights t =
      ((List.range 32).map (fun i => 2 ^ i)).filterMap
        (fun step => checkedSub t step) ++ [0] ∧
    (∀ s2 : SledState, s2.by_height = [] →
      (s2.call (.GetBlockLocator g)).1 = .ok (.BlockLocator [g])) := by
  refine ⟨?_, ?_, ?_⟩
  · simp [SledState.call, SledState.callGetBlockLocator, htip, hth,
      collectLocatorHashes_eq s _ hholes]
  · rw [block_locator_heights, blockLocatorSteps_eq]
  · intro s2 h2
    simp [SledState.call, SledState.callGetBlockLocator, SledState.get_tip, h2, maxEntry]

theorem get_block_locator_spec_witness :
    (SledState.mk [(100, [1, 100, 0]), (101, [1, 101, 1]), (102, [1, 102, 2])]
        [(0, [1, 100, 0]), (1, [1, 101, 1]), (2, [1, 102, 2])]).get_tip =
      .ok (some (Block.mk 102 (some 2))) ∧
    ((SledState.mk [(100, [1, 100, 0]), (101, [1, 101, 1]), (102, [1, 102, 2])]
        [(0, [1, 100, 0]), (1, [1, 101, 1]), (2, [1, 102, 2])]).call
      (.GetBlockLocator 100)).1 = .ok (.BlockLocator [101, 100, 100]) := by
  have he : block_locator_heights 2 = [1, 0, 0] := by
    rw [block_locator_heights, blockLocatorSteps_eq]
    decide
  have hholes : ∀ ht ∈ block_locator_heights 2, ∃ b,
      (SledState.mk [(100, [1, 100, 0]), (101, [1, 101, 1]), (102, [1, 102, 2])]
        [(0, [1, 100, 0]), (1, [1, 101, 1]), (2, [1, 102, 2])]).blockAtHeight ht
        = some b := by
    intro ht hht
    rw [he] at hht
    simp only [List.mem_cons, List.not_mem_nil, or_false] at hht
    rcases hht with rfl | rfl | rfl
    · exact ⟨Block.mk 101 (some 1), rfl⟩
    · exact ⟨Block.mk 100 (some 0), rfl⟩
    · exact ⟨Block.mk 100 (some 0), rfl⟩
  have h := get_block_locator_spec
    (SledState.mk [(100, [1, 100, 0]), (101, [1, 101, 1]), (102, [1, 102, 2])]
      [(0, [1, 100, 0]), (1, [1, 101, 1]), (2, [1, 102, 2])])
    100 2 (Block.mk 102 (some 2)) rfl rfl hholes
  refine ⟨rfl, ?_⟩
  rw [h.1, he]
  rfl

/-- C7: `GetDepth` answers `Depth(None)` when the hash is not in the
`by_hash` index, and `Depth(Some(tip_height - block_height))` when it is,
where the tip block is the one stored at the maximal `by_height` key. -/
theorem get_depth_spec (s : SledState) (hsh : Nat) :
    (s.containsHash hsh = false →
      (s.call (.GetDepth hsh)).1 = .ok (.Depth none)) ∧
    (∀ b tb bh th, s.containsHash hsh = true →
      s.get (.byHash hsh) = .ok (some b) → b.coinbase_height = some bh →
      s.get_tip = .ok (some tb) → tb.coinbase_height = some th →
      bh ≤ th →
      (s.call (.GetDepth hsh)).1 = .ok (.Depth (some (th - bh)))) := by
  constructor
  · intro hc
    simp [SledState.call, SledState.callGetDepth, hc]
  · intro b tb bh th hc hg hbh htip hth hle
    simp [SledState.call, SledState.callGetDepth, hc, hg, hbh, htip, hth, hle]

theorem get_depth_spec_witness :
    ((SledState.mk [(100, [1, 100, 0]), (101, [1, 101, 1]), (102, [1, 102, 2])]
        [(0, [1, 100, 0]), (1, [1, 101, 1]), (2, [1, 102, 2])]).call
      (.GetDepth 101)).1 = .ok (.Depth (some 1)) ∧
    ((SledState.mk [(100, [1, 100, 0]), (101, [1, 101, 1]), (102, [1, 102, 2])]
        [(0, [1, 100, 0]), (1, [1, 101, 1]), (2, [1, 102, 2])]).call
      (.GetDepth 555)).1 = .ok (.Depth none) :=
  ⟨(get_depth_spec (SledState.mk
      [(100, [1, 100, 0]), (101, [1, 101, 1]), (102, [1, 102, 2])]
      [(0, [1, 100, 0]), (1, [1, 101, 1]), (2, [1, 102, 2])]) 101).2
      (Block.mk 101 (some 1)) (Block.mk 102 (some 2)) 1 2
      rfl rfl rfl rfl rfl (by decide),
   (get_depth_spec (SledState.mk
      [(100, [1, 100, 0]), (101, [1, 101, 1]), (102, [1, 102, 2])]
      [(0, [1, 100, 0]), (1, [1, 101, 1]), (2, [1, 102, 2])]) 555).1 rfl⟩

theorem applyBatch_cons (db : ZebraDb) (op : Op) (ops : List Op) :
    db.applyBatch (op :: ops) = (db.applyOp op).applyBatch ops := rfl

theorem prepare_nullifier_batch_append (batch : List Op) (tx : Transaction) :
    prepare_nullifier_batch batch tx = batch ++ prepare_nullifier_batch [] tx := by
  simp [prepare_nullifier_batch]

theorem foldl_nullifier_batch_append (txs : List Transaction) : ∀ batch : List Op,
    txs.foldl prepare_nullifier_batch batch =
      batch ++ txs.foldl prepare_nullifier_batch [] := by
  induction txs with
  | nil => intro batch; simp
  | cons tx txs ih =>
    intro batch
    rw [List.foldl_cons, List.foldl_cons, ih (prepare_nullifier_batch batch tx),
      ih (prepare_nullifier_batch [] tx), prepare_nullifier_batch_append,
      List.append_assoc]

theorem mem_foldl_nullifier_batch (txs : List Transaction) (tx : Transaction)
    (htx : tx ∈ txs) (op : Op) (hop : op ∈ prepare_nullifier_batch [] tx) :
    op ∈ txs.foldl prepare_nullifier_batch [] := by
  induction txs with
  | nil => cases htx
  | cons t ts ih =>
    rw [List.foldl_cons, foldl_nullifier_batch_append ts (prepare_nullifier_batch [] t)]
    rcases List.mem_cons.mp htx with rfl | htx'
    · exact List.mem_append_left _ hop
    · exact List.mem_append_right _ (ih htx')

theorem applyBatch_preserves_sprout (ops : List Op) : ∀ (db : ZebraDb) (n : Nat),
    alGet db.sprout_nullifiers n = some [] →
    alGet (db.applyBatch ops).sprout_nullifiers n = some [] := by
  induction ops with
  | nil => intro db n h; exact h
  | cons op ops ih =>
    intro db n h
    rw [applyBatch_cons]
    refine ih _ n ?_
    cases op with
    | putSproutNullifier m =>
      by_cases hmn : m = n
      · subst hmn
        simp [ZebraDb.applyOp, alGet_alInsert_self]
      · simpa [ZebraDb.applyOp, alGet_alInsert_ne _ _ _ _ hmn] using h
    | putSaplingNullifier m => simpa [ZebraDb.applyOp] using h
    | putOrchardNullifier m => simpa [ZebraDb.applyOp] using h
    | putSproutAnchor r t => simpa [ZebraDb.applyOp] using h
    | putSaplingAnchor r => simpa [ZebraDb.applyOp] using h
    | putOrchardAnchor r => simpa [ZebraDb.applyOp] using h
    | delSproutTree ht => simpa [ZebraDb.applyOp] using h
    | putSproutTree ht t => simpa [ZebraDb.applyOp] using h
    | putSaplingTree ht t => simpa [ZebraDb.applyOp] using h
    | putOrchardTree ht t => simpa [ZebraDb.applyOp] using h
    | putSaplingSubtree i d => simpa [ZebraDb.applyOp] using h
    | putOrchardSubtree i d => simpa [ZebraDb.applyOp] using h

theorem applyBatch_preserves_sapling (ops : List Op) : ∀ (db : ZebraDb) (n : Nat),
    alGet db.sapling_nullifiers n = some [] →
    alGet (db.applyBatch ops).sapling_nullifiers n = some [] := by
  induction ops with
  | nil => intro db n h; exact h
  | cons op ops ih =>
    intro db n h
    rw [applyBatch_cons]
    refine ih _ n ?_
    cases op with
    | putSaplingNullifier m =>
      by_cases hmn : m = n
      · subst hmn
        simp [ZebraDb.applyOp, alGet_alInsert_self]
      · simpa [ZebraDb.applyOp, alGet_alInsert_ne _ _ _ _ hmn] using h
    | putSproutNullifier m => simpa [ZebraDb.applyOp] using h
    | putOrchardNullifier m => simpa [ZebraDb.applyOp] using h
    | putSproutAnchor r t => simpa [ZebraDb.applyOp] using h
    | putSaplingAnchor r => simpa [ZebraDb.applyOp] using h
    | putOrchardAnchor r => simpa [ZebraDb.applyOp] using h
    | delSproutTree ht => simpa [ZebraDb.applyOp] using h
    | putSproutTree ht t => simpa [ZebraDb.applyOp] using h
    | putSaplingTree ht t => simpa [ZebraDb.applyOp] using h
    | putOrchardTree ht t => simpa [ZebraDb.applyOp] using h
    | putSaplingSubtree i d => simpa [ZebraDb.applyOp] using h
    | putOrchardSubtree i d => simpa [ZebraDb.applyOp] using h

theorem applyBatch_preserves_orchard (ops : List Op) : ∀ (db : ZebraDb) (n : Nat),
    alGet db.orchard_nullifiers n = some [] →
    alGet (db.applyBatch ops).orchard_nullifiers n = some [] := by
  induction ops with
  | nil => intro db n h; exact h
  | cons op ops ih =>
    intro db n h
    rw [applyBatch_cons]
    refine ih _ n ?_
    cases op with
    | putOrchardNullifier m =>
      by_cases hmn : m = n
      · subst hmn
        simp [ZebraDb.applyOp, alGet_alInsert_self]
      · simpa [ZebraDb.applyOp, alGet_alInsert_ne _ _ _ _ hmn] using h
    | putSproutNullifier m => simpa [ZebraDb.applyOp] using h
    | putSaplingNullifier m => simpa [ZebraDb.applyOp] using h
    | putSproutAnchor r t => simpa [ZebraDb.applyOp] using h
    | putSaplingAnchor r => simpa [ZebraDb.applyOp] using h
    | putOrchardAnchor r => simpa [ZebraDb.applyOp] using h
    | delSproutTree ht => simpa [ZebraDb.applyOp] using h
    | putSproutTree ht t => simpa [ZebraDb.applyOp] using h
    | putSaplingTree ht t => simpa [ZebraDb.applyOp] using h
    | putOrchardTree ht t => simpa [ZebraDb.applyOp] using h
    | putSaplingSubtree i d => simpa [ZebraDb.applyOp] using h
    | putOrchardSubtree i d => simpa [ZebraDb.applyOp] using h

theorem applyBatch_sprout_of_mem (ops : List Op) : ∀ (db : ZebraDb) (n : Nat),
    Op.putSproutNullifier n ∈ ops →
    alGet (db.applyBatch ops).sprout_nullifiers n = some [] := by
  induction ops with
  | nil => intro db n h; cases h
  | cons op ops ih =>
    intro db n h
    rcases List.mem_cons.mp h with rfl | h'
    · rw [applyBatch_cons]
      exact applyBatch_preserves_sprout ops _ n
        (by simp [ZebraDb.applyOp, alGet_alInsert_self])
    · rw [applyBatch_cons]
      exact ih _ n h'

theorem applyBatch_sapling_of_mem (ops : List Op) : ∀ (db : ZebraDb) (n : Nat),
    Op.putSaplingNullifier n ∈ ops →
    alGet (db.applyBatch ops).sapling_nullifiers n = some [] := by
  induction ops with
  | nil => intro db n h; cases h
  | cons op ops ih =>
    intro db n h
    rcases List.mem_cons.mp h with rfl | h'
    · rw [applyBatch_cons]
      exact applyBatch_preserves_sapling ops _ n
        (by simp [ZebraDb.applyOp, alGet_alInsert_self])
    · rw [applyBatch_cons]
      exact ih _ n h'

theorem applyBatch_orchard_of_mem (ops : List Op) : ∀ (db : ZebraDb) (n : Nat),
    Op.putOrchardNullifier n ∈ ops →
    alGet (db.applyBatch ops).orchard_nullifiers n = some [] := by
  induction ops with
  | nil => intro db n h; cases h
  | cons op ops ih =>
    intro db n h
    rcases List.mem_cons.mp h with rfl | h'
    · rw [applyBatch_cons]
      exact applyBatch_preserves_orchard ops _ n
        (by simp [ZebraDb.applyOp, alGet_alInsert_self])
    · rw [applyBatch_cons]
      exact ih _ n h'

/-- C3: after a block commit batch is applied, every Sprout, Sapling and
Orchard nullifier revealed by every transaction in the block is present in
the corresponding nullifier column family as a key with an empty value, so
the corresponding `contains_*` query returns true. -/
theorem committed_block_nullifiers_present (db : ZebraDb)
    (blk : SemanticallyVerifiedBlock) (tx : Transaction)
    (htx : tx ∈ blk.transactions) :
    (∀ n ∈ tx.sprout_nullifiers,
      alGet (db.applyBatch (prepare_shielded_transaction_batch [] blk)).sprout_nullifiers n
        = some [] ∧
      (db.applyBatch (prepare_shielded_transaction_batch [] blk)).contains_sprout_nullifier n
        = true) ∧
    (∀ n ∈ tx.sapling_nullifiers,
      alGet (db.applyBatch (prepare_shielded_transaction_batch [] blk)).sapling_nullifiers n
        = some [] ∧
      (db.applyBatch (prepare_shielded_transaction_batch [] blk)).contains_sapling_nullifier n
        = true) ∧
    (∀ n ∈ tx.orchard_nullifiers,
      alGet (db.applyBatch (prepare_shielded_transaction_batch [] blk)).orchard_nullifiers n
        = some [] ∧
      (db.applyBatch (prepare_shielded_transaction_batch [] blk)).contains_orchard_nullifier n
        = true) := by
  refine ⟨?_, ?_, ?_⟩
  · intro n hn
    have hmem : Op.putSproutNullifier n ∈ prepare_shielded_transaction_batch [] blk := by
      refine mem_foldl_nullifier_batch blk.transactions tx htx _ ?_
      simp [prepare_nullifier_batch]
      exact hn
    have hget := applyBatch_sprout_of_mem _ db n hmem
    exact ⟨hget, by simp [ZebraDb.contains_sprout_nullifier, alContains, hget]⟩
  · intro n hn
    have hmem : Op.putSaplingNullifier n ∈ prepare_shielded_transaction_batch [] blk := by
      refine mem_foldl_nullifier_batch blk.transactions tx htx _ ?_
      simp [prepare_nullifier_batch]
      exact hn
    have hget := applyBatch_sapling_of_mem _ db n hmem
    exact ⟨hget, by simp [ZebraDb.contains_sapling_nullifier, alContains, hget]⟩
  · intro n hn
    have hmem : Op.putOrchardNullifier n ∈ prepare_shielded_transaction_batch [] blk := by
      refine mem_foldl_nullifier_batch blk.transactions tx htx _ ?_
      simp [prepare_nullifier_batch]
      exact hn
    have hget := applyBatch_orchard_of_mem _ db n hmem
    exact ⟨hget, by simp [ZebraDb.contains_orchard_nullifier, alContains, hget]⟩

theorem committed_block_nullifiers_present_witness :
    demoTx ∈ demoBlk.transactions ∧
    (emptyZebraDb.applyBatch
      (prepare_shielded_transaction_batch [] demoBlk)).contains_sprout_nullifier 1 = true ∧
    (emptyZebraDb.applyBatch
      (prepare_shielded_transaction_batch [] demoBlk)).contains_sapling_nullifier 2 = true ∧
    (emptyZebraDb.applyBatch
      (prepare_shielded_transaction_batch [] demoBlk)).contains_orchard_nullifier 3 = true :=
  ⟨List.mem_cons_self demoTx [],
   ((committed_block_nullifiers_present emptyZebraDb demoBlk demoTx
      (List.mem_cons_self demoTx [])).1 1 (by simp [demoTx])).2,
   ((committed_block_nullifiers_present emptyZebraDb demoBlk demoTx
      (List.mem_cons_self demoTx [])).2.1 2 (by simp [demoTx])).2,
   ((committed_block_nullifiers_present emptyZebraDb demoBlk demoTx
      (List.mem_cons_self demoTx [])).2.2 3 (by simp [demoTx])).2⟩

theorem pkv_cons_le_none {α : Type} (e : Nat × α) (rest : List (Nat × α)) (k : Nat)
    (hek : e.1 ≤ k) (hr : prevKeyValueBackFrom rest k = none) :
    prevKeyValueBackFrom (e :: rest) k = some e := by
  rw [prevKeyValueBackFrom, if_pos hek, hr]

theorem pkv_cons_le_some {α : Type} (e e' : Nat × α) (rest : List (Nat × α)) (k : Nat)
    (hek : e.1 ≤ k) (hr : prevKeyValueBackFrom rest k = some e') :
    prevKeyValueBackFrom (e :: rest) k =
      if e.1 < e'.1 then some e' else some e := by
  rw [prevKeyValueBackFrom, if_pos hek, hr]

theorem pkv_cons_gt {α : Type} (e : Nat × α) (rest : List (Nat × α)) (k : Nat)
    (hek : ¬ e.1 ≤ k) :
    prevKeyValueBackFrom (e :: rest) k = prevKeyValueBackFrom rest k := by
  rw [prevKeyValueBackFrom, if_neg hek]

theorem prevKeyValueBackFrom_none {α : Type} (l : List (Nat × α)) (k : Nat)
    (h : prevKeyValueBackFrom l k = none) : ∀ p ∈ l, ¬ p.1 ≤ k := by
  induction l with
  | nil => simp
  | cons e rest ih =>
    intro p hp
    by_cases hek : e.1 ≤ k
    · exfalso
      rcases hr : prevKeyValueBackFrom rest k with _ | e'
      · rw [pkv_cons_le_none e rest k hek hr] at h
        exact Option.noConfusion h
      · rw [pkv_cons_le_some e e' rest k hek hr] at h
        by_cases hlt : e.1 < e'.1
        · rw [if_pos hlt] at h
          exact Option.noConfusion h
        · rw [if_neg hlt] at h
          exact Option.noConfusion h
    · rw [pkv_cons_gt e rest k hek] at h
      rcases List.mem_cons.mp hp with rfl | hp'
      · exact hek
      · exact ih h p hp'

theorem prevKeyValueBackFrom_spec {α : Type} (l : List (Nat × α)) (k k0 : Nat) (v : α)
    (h : prevKeyValueBackFrom l k = some (k0, v)) :
    (k0, v) ∈ l ∧ k0 ≤ k ∧ ∀ p ∈ l, p.1 ≤ k → p.1 ≤ k0 := by
  induction l generalizing k0 v with
  | nil => exact Option.noConfusion h
  | cons e rest ih =>
    by_cases hek : e.1 ≤ k
    · rcases hr : prevKeyValueBackFrom rest k with _ | e'
      · rw [pkv_cons_le_none e rest k hek hr] at h
        have he : e = (k0, v) := by injection h
        subst he
        have hnone := prevKeyValueBackFrom_none rest k hr
        refine ⟨List.mem_cons_self _ _, hek, ?_⟩
        intro p hp hpk
        rcases List.mem_cons.mp hp with rfl | hp'
        · exact le_refl _
        · exact absurd hpk (hnone p hp')
      · obtain ⟨hmem', hle', hmax'⟩ := ih e'.1 e'.2 (by rw [hr])
        rw [pkv_cons_le_some e e' rest k hek hr] at h
        by_cases hlt : e.1 < e'.1
        · rw [if_pos hlt] at h
          have he : e' = (k0, v) := by injection h
          subst he
          have hmem2 : (k0, v) ∈ rest := hmem'
          have hle2 : k0 ≤ k := hle'
          have hlt2 : e.1 < k0 := hlt
          refine ⟨List.mem_cons_of_mem _ hmem2, hle2, ?_⟩
          intro p hp hpk
          rcases List.mem_cons.mp hp with rfl | hp'
          · omega
          · have := hmax' p hp' hpk
            exact this
        · rw [if_neg hlt] at h
          have he : e = (k0, v) := by injection h
          subst he
          have hnlt : ¬ k0 < e'.1 := hlt
          refine ⟨List.mem_cons_self _ _, hek, ?_⟩
          intro p hp hpk
          rcases List.mem_cons.mp hp with rfl | hp'
          · exact le_refl _
          · have h1 : p.1 ≤ e'.1 := hmax' p hp' hpk
            show p.1 ≤ k0
            omega
    · rw [pkv_cons_gt e rest k hek] at h
      obtain ⟨hmem', hle', hmax'⟩ := ih k0 v h
      refine ⟨List.mem_cons_of_mem _ hmem', hle', ?_⟩
      intro p hp hpk
      rcases List.mem_cons.mp hp with rfl | hp'
      · exact absurd hpk hek
      · exact hmax' p hp' hpk

/-- C4: `sapling_tree_by_height` (and identically `orchard_tree_by_height`)
returns "unknown" (`ok none`) whenever the store is empty or the height is
above the finalized tip, and otherwise returns the tree stored at the
greatest height key at most the requested height; when no such entry
exists it panics, since the tree must exist. -/
theorem tree_by_height_spec (db : ZebraDb) (h : Nat) :
    (db.finalized_tip_height = none →
      db.sapling_tree_by_height h = .ok none ∧
      db.orchard_tree_by_height h = .ok none) ∧
    (∀ tip, db.finalized_tip_height = some tip → tip < h →
      db.sapling_tree_by_height h = .ok none ∧
      db.orchard_tree_by_height h = .ok none) ∧
    (∀ tip k tr, db.finalized_tip_height = some tip → h ≤ tip →
      prevKeyValueBackFrom db.sapling_trees h = some (k, tr) →
      db.sapling_tree_by_height h = .ok (some tr) ∧
      (k, tr) ∈ db.sapling_trees ∧ k ≤ h ∧
      ∀ p ∈ db.sapling_trees, p.1 ≤ h → p.1 ≤ k) ∧
    (∀ tip, db.finalized_tip_height = some tip → h ≤ tip →
      prevKeyValueBackFrom db.sapling_trees h = none →
      db.sapling_tree_by_height h =
        .panic "Sapling note commitment trees must exist for all heights below the finalized tip") ∧
    (∀ tip k tr, db.finalized_tip_height = some tip → h ≤ tip →
      prevKeyValueBackFrom db.orchard_trees h = some (k, tr) →
      db.orchard_tree_by_height h = .ok (some tr) ∧
      (k, tr) ∈ db.orchard_trees ∧ k ≤ h ∧
      ∀ p ∈ db.orchard_trees, p.1 ≤ h → p.1 ≤ k) ∧
    (∀ tip, db.finalized_tip_height = some tip → h ≤ tip →
      prevKeyValueBackFrom db.orchard_trees h = none →
      db.orchard_tree_by_height h =
        .panic "Orchard note commitment trees must exist for all heights below the finalized tip") := by
  refine ⟨?_, ?_, ?_, ?_, ?_, ?_⟩
  · intro htip
    constructor <;>
      simp [ZebraDb.sapling_tree_by_height, ZebraDb.orchard_tree_by_height, htip]
  · intro tip htip hlt
    constructor <;>
      simp [ZebraDb.sapling_tree_by_height, ZebraDb.orchard_tree_by_height, htip, hlt]
  · intro tip k tr htip hle hpkv
    obtain ⟨hmem, hk, hmax⟩ := prevKeyValueBackFrom_spec _ h k tr hpkv
    refine ⟨?_, hmem, hk, hmax⟩
    simp [ZebraDb.sapling_tree_by_height, htip, Nat.not_lt.mpr hle, hpkv]
  · intro tip htip hle hpkv
    simp [ZebraDb.sapling_tree_by_height, htip, Nat.not_lt.mpr hle, hpkv]
  · intro tip k tr htip hle hpkv
    obtain ⟨hmem, hk, hmax⟩ := prevKeyValueBackFrom_spec _ h k tr hpkv
    refine ⟨?_, hmem, hk, hmax⟩
    simp [ZebraDb.orchard_tree_by_height, htip, Nat.not_lt.mpr hle, hpkv]
  · intro tip htip hle hpkv
    simp [ZebraDb.orchard_tree_by_height, htip, Nat.not_lt.mpr hle, hpkv]

theorem tree_by_height_spec_witness :
    demoZebraDb.sapling_tree_by_height 1 = .ok (some (NCTree.mk 5 50)) ∧
    demoZebraDb.sapling_tree_by_height 3 = .ok (some (NCTree.mk 6 60)) ∧
    demoZebraDb.sapling_tree_by_height 11 = .ok none ∧
    demoZebraDb.orchard_tree_by_height 11 = .ok none ∧
    emptyZebraDb.sapling_tree_by_height 0 = .ok none :=
  ⟨((tree_by_height_spec demoZebraDb 1).2.2.1 10 0 (NCTree.mk 5 50) rfl
      (by decide) rfl).1,
   ((tree_by_height_spec demoZebraDb 3).2.2.1 10 2 (NCTree.mk 6 60) rfl
      (by decide) rfl).1,
   ((tree_by_height_spec demoZebraDb 11).2.1 10 rfl (by decide)).1,
   ((tree_by_height_spec demoZebraDb 11).2.1 10 rfl (by decide)).2,
   ((tree_by_height_spec emptyZebraDb 0).1 rfl).1⟩

/-- C5: when preparing a block-commit batch at a height, the Sapling note
commitment tree is inserted (at that height, once) if and only if the
height is the genesis height or the new tree differs from the previous
tree — the supplied previous trees when present, otherwise the tip tree
read from the store; otherwise no Sapling tree entry is written, keeping
the height-keyed column sparse. The Orchard tree follows the same rule. -/
theorem trees_batch_dedup (zdb : ZebraDb) (height : Nat) (trees : NoteCommitmentTrees)
    (prev : Option NoteCommitmentTrees) (prevS prevO : NCTree)
    (hs : prev_sapling_tree zdb prev = .ok prevS)
    (ho : prev_orchard_tree zdb prev = .ok prevO) :
    (prepare_trees_batch zdb [] height trees prev).filterOps Op.isPutSaplingTree =
      some (if height = 0 ∨ prevS ≠ trees.sapling
        then [Op.putSaplingTree height trees.sapling] else []) ∧
    (prepare_trees_batch zdb [] height trees prev).filterOps Op.isPutOrchardTree =
      some (if height = 0 ∨ prevO ≠ trees.orchard
        then [Op.putOrchardTree height trees.orchard] else []) := by
  obtain ⟨tsp, tsap, tss, torc, tos⟩ := trees
  have hsc : sapling_tree_changed zdb height tsap prev =
      .ok (decide (height = 0 ∨ prevS ≠ tsap)) := by
    by_cases h0 : height = 0 <;> simp [sapling_tree_changed, hs, h0]
  have hoc : orchard_tree_changed zdb height torc prev =
      .ok (decide (height = 0 ∨ prevO ≠ torc)) := by
    by_cases h0 : height = 0 <;> simp [orchard_tree_changed, ho, h0]
  cases height with
  | zero =>
    cases tss <;> cases tos <;>
      simp [RunResult.filterOps, prepare_trees_batch, hsc, hoc,
        Op.isPutSaplingTree, Op.isPutOrchardTree, List.filter_append]
  | succ hp =>
    have h0 : ¬ (Nat.succ hp = 0) := Nat.succ_ne_zero hp
    by_cases hq1 : prevS ≠ tsap <;> by_cases hq2 : prevO ≠ torc <;>
      cases tss <;> cases tos <;>
        simp [RunResult.filterOps, prepare_trees_batch, hsc, hoc, h0, hq1, hq2,
          Op.isPutSaplingTree, Op.isPutOrchardTree, List.filter_append]

theorem trees_batch_dedup_witness :
    (prepare_trees_batch emptyZebraDb [] 7 demoNewTrees (some demoPrevTrees)).filterOps
      Op.isPutSaplingTree = some [] ∧
    (prepare_trees_batch emptyZebraDb [] 7 demoNewTrees (some demoPrevTrees)).filterOps
      Op.isPutOrchardTree = some [Op.putOrchardTree 7 (NCTree.mk 4 4)] := by
  have h := trees_batch_dedup emptyZebraDb 7 demoNewTrees (some demoPrevTrees)
    (NCTree.mk 2 2) (NCTree.mk 3 3) rfl rfl
  refine ⟨?_, ?_⟩
  · rw [h.1, if_neg (by decide)]
  · rw [h.2, if_pos (by decide)]
    rfl

theorem alGet_isSome_iff {α : Type} (l : List (Nat × α)) (k : Nat) :
    (alGet l k).isSome = true ↔ ∃ v, (k, v) ∈ l := by
  induction l with
  | nil => simp [alGet]
  | cons e rest ih =>
    obtain ⟨k', v'⟩ := e
    by_cases hk : k' = k
    · subst hk
      simp [alGet]
    · have hk2 : ¬ (k = k') := fun h => hk h.symm
      simp [alGet, hk, hk2, ih]

theorem subtree_list_no_bound_mem (cf : List (Nat × Nat)) (start k v : Nat) :
    ((k, v) ∈ (if (alGet (cf.filter (fun p => decide (start ≤ p.1))) start).isSome
        then cf.filter (fun p => decide (start ≤ p.1)) else [])) ↔
      ((k, v) ∈ cf ∧ start ≤ k ∧ ∃ v0, (start, v0) ∈ cf) := by
  by_cases hb : (alGet (cf.filter (fun p => decide (start ≤ p.1))) start).isSome = true
  · rw [if_pos hb]
    rw [alGet_isSome_iff] at hb
    obtain ⟨v0, hv0⟩ := hb
    rw [List.mem_filter] at hv0
    constructor
    · intro hm
      rw [List.mem_filter] at hm
      exact ⟨hm.1, by simpa using hm.2, v0, hv0.1⟩
    · rintro ⟨h1, h2, -⟩
      rw [List.mem_filter]
      exact ⟨h1, by simpa using h2⟩
  · rw [if_neg hb]
    simp only [List.not_mem_nil, false_iff]
    rintro ⟨h1, h2, v0, hv0⟩
    apply hb
    rw [alGet_isSome_iff]
    exact ⟨v0, List.mem_filter.mpr ⟨hv0, by simp⟩⟩

theorem subtree_list_bound_mem (cf : List (Nat × Nat)) (start e k v : Nat) :
    ((k, v) ∈ (if (alGet (cf.filter (fun p => decide (start ≤ p.1 ∧ p.1 < e))) start).isSome
        then cf.filter (fun p => decide (start ≤ p.1 ∧ p.1 < e)) else [])) ↔
      ((k, v) ∈ cf ∧ start ≤ k ∧ k < e ∧ ∃ v0, (start, v0) ∈ cf ∧ start < e) := by
  by_cases hb : (alGet (cf.filter (fun p => decide (start ≤ p.1 ∧ p.1 < e))) start).isSome
      = true
  · rw [if_pos hb]
    rw [alGet_isSome_iff] at hb
    obtain ⟨v0, hv0⟩ := hb
    rw [List.mem_filter] at hv0
    have hv0' : start ≤ start ∧ start < e := by simpa using hv0.2
    constructor
    · intro hm
      rw [List.mem_filter] at hm
      have hm2 : start ≤ k ∧ k < e := by simpa using hm.2
      exact ⟨hm.1, hm2.1, hm2.2, v0, hv0.1, hv0'.2⟩
    · rintro ⟨h1, h2, h3, -⟩
      rw [List.mem_filter]
      refine ⟨h1, by simp [h2, h3]⟩
  · rw [if_neg hb]
    simp only [List.not_mem_nil, false_iff]
    rintro ⟨h1, h2, h3, v0, hv0, hlt⟩
    apply hb
    rw [alGet_isSome_iff]
    exact ⟨v0, List.mem_filter.mpr ⟨hv0, by simp [hlt]⟩⟩

/-- C6: `sapling_subtree_list_by_index_for_rpc` collects the subtree
entries with index in the half-open range `[start, start + limit)` when a
limit is supplied and the `u16` addition does not overflow, and in
`[start, ∞)` otherwise; the result is empty unless the collected range
contains the start index itself, in which case it is the collected range
unchanged. `orchard_subtree_list_by_index_for_rpc` behaves identically. -/
theorem subtree_list_by_index_spec (cf : List (Nat × Nat)) (start_index : Nat)
    (limit : Option Nat) :
    (∀ k v, (k, v) ∈ sapling_subtree_list_by_index_for_rpc cf start_index limit ↔
      ((k, v) ∈ cf ∧ start_index ≤ k ∧
        (∀ l, limit = some l → start_index + l ≤ 65535 → k < start_index + l) ∧
        ∃ v0, (start_index, v0) ∈ cf ∧
          (∀ l, limit = some l → start_index + l ≤ 65535 → 0 < l))) ∧
    orchard_subtree_list_by_index_for_rpc cf start_index limit =
      sapling_subtree_list_by_index_for_rpc cf start_index limit := by
  refine ⟨?_, rfl⟩
  intro k v
  rcases limit with _ | l
  · have hre : sapling_subtree_list_by_index_for_rpc cf start_index none =
        (if (alGet (cf.filter (fun p => decide (start_index ≤ p.1))) start_index).isSome
          then cf.filter (fun p => decide (start_index ≤ p.1)) else []) := rfl
    rw [hre, subtree_list_no_bound_mem]
    simp
  · by_cases hov : start_index + l ≤ 65535
    · have hre : sapling_subtree_list_by_index_for_rpc cf start_index (some l) =
          (if (alGet (cf.filter
              (fun p => decide (start_index ≤ p.1 ∧ p.1 < start_index + l)))
              start_index).isSome
            then cf.filter
              (fun p => decide (start_index ≤ p.1 ∧ p.1 < start_index + l))
            else []) := by
        simp only [sapling_subtree_list_by_index_for_rpc]
        simp [checkedAddU16, hov]
      rw [hre, subtree_list_bound_mem]
      constructor
      · rintro ⟨h1, h2, h3, v0, hv0, hlt⟩
        refine ⟨h1, h2, ?_, v0, hv0, ?_⟩
        · intro l' hl' hle'
          injection hl' with hll
          subst hll
          exact h3
        · intro l' hl' hle'
          injection hl' with hll
          subst hll
          omega
      · rintro ⟨h1, h2, h3, v0, hv0, hbd⟩
        refine ⟨h1, h2, h3 l rfl hov, v0, hv0, ?_⟩
        have := hbd l rfl hov
        omega
    · have hre : sapling_subtree_list_by_index_for_rpc cf start_index (some l) =
        (if (alGet (cf.filter (fun p => decide (start_index ≤ p.1))) start_index).isSome
          then cf.filter (fun p => decide (start_index ≤ p.1)) else []) := by
        simp only [sapling_subtree_list_by_index_for_rpc]
        simp [checkedAddU16, hov]
      rw [hre, subtree_list_no_bound_mem]
      constructor
      · rintro ⟨h1, h2, v0, hv0⟩
        refine ⟨h1, h2, ?_, v0, hv0, ?_⟩
        · intro l' hl' hle'
          injection hl' with hll
          subst hll
          exact absurd hle' hov
        · intro l' hl' hle'
          injection hl' with hll
          subst hll
          exact absurd hle' hov
      · rintro ⟨h1, h2, -, v0, hv0, -⟩
        exact ⟨h1, h2, v0, hv0⟩

theorem subtree_list_by_index_spec_witness :
    (4, 40) ∈ sapling_subtree_list_by_index_for_rpc [(3, 30), (4, 40), (5, 50)] 3 (some 10) ∧
    sapling_subtree_list_by_index_for_rpc [(3, 30), (4, 40), (5, 50)] 2 (some 10) = [] ∧
    orchard_subtree_list_by_index_for_rpc [(3, 30), (4, 40), (5, 50)] 3 (some 10) =
      sapling_subtree_list_by_index_for_rpc [(3, 30), (4, 40), (5, 50)] 3 (some 10) := by
  refine ⟨?_, by decide,
    (subtree_list_by_index_spec [(3, 30), (4, 40), (5, 50)] 3 (some 10)).2⟩
  refine ((subtree_list_by_index_spec [(3, 30), (4, 40), (5, 50)] 3 (some 10)).1 4 40).mpr
    ⟨by decide, by decide, ?_, 30, by decide, ?_⟩
  · intro l hl hle
    injection hl with hll
    subst hll
    decide
  · intro l hl hle
    injection hl with hll
    subst hll
    decide

/-- C9: with no cache directory configured, opening the state store fails:
`sled_config` panics with a message that names the `cache_dir`
configuration key and suggests a path; with a cache directory it selects
`{cache_dir}/{mainnet|testnet}/state`. The default configuration takes the
cache directory from the `ZEBRAD_CACHE_DIR` environment variable, falling
back to the OS cache directory joined with "zebra". -/
theorem config_cache_dir_spec :
    (∀ network, sled_config { cache_dir := none } network = .panic cacheDirTodoMsg) ∧
    List.IsInfix "cache_dir".toList cacheDirTodoMsg.toList ∧
    List.IsInfix "/path/to/cache-or-tmp".toList cacheDirTodoMsg.toList ∧
    (∀ p network, sled_config { cache_dir := some p } network =
      .ok (p ++ [net_dir network, "state"])) ∧
    (∀ env os, default_state_config (some env) os = { cache_dir := some [env] }) ∧
    (∀ os, default_state_config none os =
      { cache_dir := os.map (fun dir => dir ++ ["zebra"]) }) := by
  refine ⟨fun _ => rfl, by decide, by decide, fun _ _ => rfl, fun _ _ => rfl, fun _ => rfl⟩

theorem config_cache_dir_spec_witness :
    sled_config { cache_dir := none } Network.Mainnet = .panic cacheDirTodoMsg ∧
    sled_config { cache_dir := some ["tmp"] } Network.Testnet =
      .ok ["tmp", "testnet", "state"] ∧
    default_state_config (some "envdir") none = { cache_dir := some ["envdir"] } ∧
    default_state_config none (some ["oscache"]) =
      { cache_dir := some ["oscache", "zebra"] } :=
  ⟨config_cache_dir_spec.1 Network.Mainnet,
   config_cache_dir_spec.2.2.2.1 ["tmp"] Network.Testnet,
   config_cache_dir_spec.2.2.2.2.1 "envdir" none,
   config_cache_dir_spec.2.2.2.2.2 (some ["oscache"])⟩
